import Mathlib

/-!
Verification of the benchmark-comparison tool (tools/scripts/compare_benchmarks.py).

The script is a linear pipeline: load two result files, group measurement
records by logical benchmark name (suffix stripping), compute a Welch-style
t statistic with a qualitative significance marker, and print a comparison
report.  We give a shallow embedding: benchmark names are lists of
characters (Python strings compared by code point), numeric values read
from the input are rationals, the t statistic lives in the reals because
the source takes a square root, Python dictionaries become association
lists with in-place update, and fallible evaluation (KeyError,
ZeroDivisionError) is modelled with an error monad.
-/

namespace CompareBenchmarks

/-- Benchmark names: Python strings, modelled as lists of characters. -/
abbrev BName := List Char

/-- The literal suffix string of the source, written as a character list. -/
def sufMean : BName := ['_', 'm', 'e', 'a', 'n']

/-- The literal suffix string of the source, written as a character list. -/
def sufMedian : BName := ['_', 'm', 'e', 'd', 'i', 'a', 'n']

/-- The literal suffix string of the source, written as a character list. -/
def sufStddev : BName := ['_', 's', 't', 'd', 'd', 'e', 'v']

/-- The literal suffix string of the source, written as a character list. -/
def sufCv : BName := ['_', 'c', 'v']

/-- Python `s.endswith(suf)`. -/
def endsWith (s suf : BName) : Bool := decide (suf <:+ s)

/-- Python slicing `s[:-k]` for a positive k: drop the last k characters. -/
def dropLastN (s : BName) (k : ℕ) : BName := s.take (s.length - k)

/-- The suffix-stripping loop of extract_results: try the four suffixes in
the order of the source list and strip the first one that matches
(`base_name = base_name[:-len(suffix)]` followed by `break`); when none
matches the name is kept verbatim. -/
def stripSuffix (name : BName) : BName :=
  if endsWith name sufMean then dropLastN name sufMean.length
  else if endsWith name sufMedian then dropLastN name sufMedian.length
  else if endsWith name sufStddev then dropLastN name sufStddev.length
  else if endsWith name sufCv then dropLastN name sufCv.length
  else name

/-- One entry of the input file's benchmarks array: `name` is mandatory,
the two numeric fields are optional because the source reads them with
`bench.get(field, 0)`. -/
structure BenchRecord where
  name : BName
  real_time : Option ℚ
  cpu_time : Option ℚ
deriving DecidableEq

/-- `bench.get('real_time', 0)`. -/
def BenchRecord.realTimeD (b : BenchRecord) : ℚ := b.real_time.getD 0

/-- `bench.get('cpu_time', 0)`. -/
def BenchRecord.cpuTimeD (b : BenchRecord) : ℚ := b.cpu_time.getD 0

/-- The per-benchmark statistics dictionary built by extract_results.
Each field is present only when the correspondingly suffixed record was
seen in the input. -/
structure Bundle where
  mean_time : Option ℚ
  mean_cpu : Option ℚ
  stddev_time : Option ℚ
  stddev_cpu : Option ℚ
  median_time : Option ℚ
  median_cpu : Option ℚ
  cv_time : Option ℚ
  cv_cpu : Option ℚ
deriving DecidableEq

/-- The empty dictionary `{}` assigned when a logical name is first seen. -/
def Bundle.empty : Bundle := ⟨none, none, none, none, none, none, none, none⟩

/-- The metric-routing chain of extract_results: the suffix of the record's
full name decides which pair of bundle fields receives `real_time` and
`cpu_time`; a record whose name matches no suffix stores nothing.  The
source checks the suffixes in the order mean, stddev, median, cv. -/
def storeMetrics (b : Bundle) (name : BName) (rt ct : ℚ) : Bundle :=
  if endsWith name sufMean then { b with mean_time := some rt, mean_cpu := some ct }
  else if endsWith name sufStddev then { b with stddev_time := some rt, stddev_cpu := some ct }
  else if endsWith name sufMedian then { b with median_time := some rt, median_cpu := some ct }
  else if endsWith name sufCv then { b with cv_time := some rt, cv_cpu := some ct }
  else b

/-- A Python dict from logical benchmark name to statistics bundle,
modelled as an association list in insertion order with unique keys. -/
abbrev ResultSet := List (BName × Bundle)

/-- Dictionary lookup `rs[k]` / `k in rs`. -/
def lookupRS (rs : ResultSet) (k : BName) : Option Bundle :=
  match rs with
  | [] => none
  | (k₂, v) :: rest => if k₂ = k then some v else lookupRS rest k

/-- Dictionary store `rs[k] = v`: replace the binding in place when the key
exists, otherwise append the new binding (Python dicts preserve insertion
order). -/
def setRS (rs : ResultSet) (k : BName) (v : Bundle) : ResultSet :=
  match rs with
  | [] => [(k, v)]
  | (k₂, v₂) :: rest => if k₂ = k then (k, v) :: rest else (k₂, v₂) :: setRS rest k v

/-- The body of the extract_results loop for one record: compute the
logical name, create an empty bundle for it if absent, and route the
record's metrics into the bundle. -/
def extractStep (rs : ResultSet) (bench : BenchRecord) : ResultSet :=
  let base := stripSuffix bench.name
  let cur := (lookupRS rs base).getD Bundle.empty
  setRS rs base (storeMetrics cur bench.name bench.realTimeD bench.cpuTimeD)

/-- extract_results: fold the loop body over the records of the input's
benchmarks array, starting from the empty dictionary. -/
def extract_results (benchs : List BenchRecord) : ResultSet :=
  benchs.foldl extractStep []

/-- The threshold chain at the end of compute_significance, as a function
of the t statistic: fixed cutoffs tested in descending order with strict
comparison, first match wins. -/
noncomputable def marker_of (t : ℝ) : String :=
  if t > 3.85 then "***"
  else if t > 2.85 then "**"
  else if t > 2.09 then "*"
  else if t > 1.68 then "."
  else ""

/-- compute_significance: the Welch-style approximation of the source.
Inputs are the rational means and standard deviations taken from the
input files; the standard error and t statistic are real because of the
square root.  Returns the pair (t statistic, significance marker). -/
noncomputable def compute_significance (baseline_mean baseline_std optimized_mean optimized_std : ℚ)
    (n : ℕ) : ℝ × String :=
  if baseline_std = 0 ∧ optimized_std = 0 then ((0 : ℝ), "")
  else
    let se : ℝ := Real.sqrt ((baseline_std : ℝ) ^ 2 / n + (optimized_std : ℝ) ^ 2 / n)
    if se = 0 then ((0 : ℝ), "")
    else
      let t := |(baseline_mean : ℝ) - (optimized_mean : ℝ)| / se
      if t > 3.85 then (t, "***")
      else if t > 2.85 then (t, "**")
      else if t > 2.09 then (t, "*")
      else if t > 1.68 then (t, ".")
      else (t, "")

/-- The sample size the script always uses: compute_significance is only
ever called with its default argument n = 20. -/
def sampleSize : ℕ := 20

/-- Python string comparison (`sorted` on dict keys): lexicographic order
on the sequences of code points. -/
def nameLe (a b : BName) : Bool :=
  match a, b with
  | [], _ => true
  | _ :: _, [] => false
  | c :: s, d :: t => if c.toNat < d.toNat then true
      else if d.toNat < c.toNat then false
      else nameLe s t

/-- The ordering relation induced by nameLe, used to state sortedness. -/
def NameLeR (a b : BName) : Prop := nameLe a b = true

instance instDecNameLeR : DecidableRel NameLeR :=
  fun a b => inferInstanceAs (Decidable (nameLe a b = true))

/-- Python `sorted(keys)`: sort the key list ascending by nameLe.  Any
comparison sort agrees with Python's stable sort here because nameLe is a
total order (equal-comparing names are equal). -/
def sortNames (l : List BName) : List BName := List.insertionSort NameLeR l

/-- The key list of a result set, in insertion order. -/
def keysRS (rs : ResultSet) : List BName := rs.map Prod.fst

/-- The guards at the top of the report loop body for one name: skip the
name when it is absent from the optimized set (`continue`), and skip it
when either bundle lacks the mean_cpu field; otherwise keep the name with
the two bundles the row is computed from. -/
def selectOne (baseline optimized : ResultSet) (name : BName) :
    Option (BName × Bundle × Bundle) :=
  match lookupRS optimized name with
  | none => none
  | some o =>
    match lookupRS baseline name with
    | none => none
    | some b => if b.mean_cpu.isSome && o.mean_cpu.isSome then some (name, b, o) else none

/-- The row-selection logic of the report loop in compare_benchmarks:
iterate the baseline keys in sorted order and keep the names that pass
both guards. -/
def selectRows (baseline optimized : ResultSet) : List (BName × Bundle × Bundle) :=
  (sortNames (keysRS baseline)).filterMap (selectOne baseline optimized)

/-- The unhandled runtime failures of the report loop: a missing
dictionary key and a zero division. -/
inductive RunError where
  | keyError
  | divByZero
deriving DecidableEq

/-- Python subscript `d['field']`: raises KeyError when the key is absent. -/
def getField (v : Option ℚ) : Except RunError ℚ :=
  match v with
  | some q => Except.ok q
  | none => Except.error RunError.keyError

/-- Python float division: raises ZeroDivisionError on a zero denominator. -/
def divQ (a b : ℚ) : Except RunError ℚ :=
  if b = 0 then Except.error RunError.divByZero else Except.ok (a / b)

/-- One printed comparison row (ephemeral in the source). -/
structure Row where
  name : BName
  time_change : ℚ
  cpu_change : ℚ
  t_stat : ℝ
  marker : String

/-- The body of the report loop for one selected name: the percentage
changes, evaluated left to right exactly as in the source (subscript
lookups may raise KeyError, the divisions by the baseline means may raise
ZeroDivisionError), followed by the significance call on the CPU pair
with the standard deviations defaulting to 0 when absent. -/
noncomputable def mk_row (name : BName) (baseline optimized : Bundle) : Except RunError Row := do
  let omt ← getField optimized.mean_time
  let bmt ← getField baseline.mean_time
  let tc ← divQ (omt - bmt) bmt
  let time_change := tc * 100
  let omc ← getField optimized.mean_cpu
  let bmc ← getField baseline.mean_cpu
  let cc ← divQ (omc - bmc) bmc
  let cpu_change := cc * 100
  let ts := compute_significance bmc (baseline.stddev_cpu.getD 0) omc (optimized.stddev_cpu.getD 0)
    sampleSize
  pure ⟨name, time_change, cpu_change, ts.1, ts.2⟩

/-- The full report loop: rows in selection order; the first raised error
aborts the loop, as an uncaught exception does in the source. -/
noncomputable def comparisonRows (baseline optimized : ResultSet) : Except RunError (List Row) :=
  (selectRows baseline optimized).mapM fun x => mk_row x.1 x.2.1 x.2.2

/-- The accumulation filter of the report loop: a row is recorded as a
significant improvement when its CPU change is below -2.0 percent and its
marker is one of the three starred tiers. -/
def significantImprovements (rows : List Row) : List Row :=
  rows.filter fun r =>
    decide (r.cpu_change < -2.0) && decide (r.marker ∈ (["*", "**", "***"] : List String))

/-- The two shapes of the summary section printed after the table: either
the list of significant improvements with the arithmetic mean of their
CPU changes, or the fixed no-improvements notice with its guidance
footnote. -/
inductive Summary where
  | improvements (items : List (BName × ℚ × String)) (avg : ℚ)
  | noneDetected
deriving DecidableEq

/-- The summary branch of compare_benchmarks: when the accumulated list is
nonempty, print name, CPU change and marker per entry together with the
average improvement; otherwise print the fixed notice. -/
def summarize (rows : List Row) : Summary :=
  let si := significantImprovements rows
  if si.isEmpty then Summary.noneDetected
  else
    Summary.improvements (si.map fun r => (r.name, r.cpu_change, r.marker))
      ((si.map Row.cpu_change).sum / (si.length : ℚ))

/-- The usage line printed on a wrong argument count. -/
def usageMessage : String := "Usage: python compare_benchmarks.py baseline.json optimized.json"

/-- What the entry point decides to do: either print usage and exit, or
run the comparison on the two named files. -/
inductive MainAction where
  | usage (message : String) (exitCode : ℕ)
  | runCompare (baselineFile optimizedFile : BName)
deriving DecidableEq

/-- The argument check of the entry point: sys.argv (program name
included) must have exactly three entries, otherwise the usage message is
printed and the process exits with status 1; with three entries the
comparison is attempted on the two file names, whatever they are. -/
def main_dispatch (argv : List BName) : MainAction :=
  if h : argv.length = 3 then
    MainAction.runCompare (argv.get ⟨1, by omega⟩) (argv.get ⟨2, by omega⟩)
  else MainAction.usage usageMessage 1

/-! ## Basic facts about the significance estimator -/

/-- Normal form of compute_significance: the two degenerate branches, and
otherwise the t statistic paired with its threshold marker. -/
theorem compute_significance_eq (bm bs om os : ℚ) (n : ℕ) :
    compute_significance bm bs om os n =
      if bs = 0 ∧ os = 0 then ((0 : ℝ), "")
      else if Real.sqrt ((bs : ℝ) ^ 2 / n + (os : ℝ) ^ 2 / n) = 0 then ((0 : ℝ), "")
      else
        (|(bm : ℝ) - (om : ℝ)| / Real.sqrt ((bs : ℝ) ^ 2 / n + (os : ℝ) ^ 2 / n),
         marker_of (|(bm : ℝ) - (om : ℝ)| / Real.sqrt ((bs : ℝ) ^ 2 / n + (os : ℝ) ^ 2 / n))) := by
  simp only [compute_significance, marker_of]
  split_ifs <;> rfl

theorem marker_of_zero : marker_of 0 = "" := by
  unfold marker_of
  norm_num

/-- The standard error evaluates to 1 when the standard deviations are 2
and 4 and the sample size is 20, since 4/20 + 16/20 = 1. -/
theorem se_one :
    Real.sqrt (((2 : ℚ) : ℝ) ^ 2 / ((20 : ℕ) : ℝ) + ((4 : ℚ) : ℝ) ^ 2 / ((20 : ℕ) : ℝ)) = 1 := by
  have h : (((2 : ℚ) : ℝ) ^ 2 / ((20 : ℕ) : ℝ) + ((4 : ℚ) : ℝ) ^ 2 / ((20 : ℕ) : ℝ)) = 1 := by
    push_cast
    norm_num
  rw [h, Real.sqrt_one]

/-- C1: the significance marker returned by compute_significance is a
function of the returned t statistic alone, given by the fixed thresholds
3.85, 2.85, 2.09, 1.68 tested in descending order with strict comparison,
first match winning, and the empty marker otherwise. -/
theorem claim_C1 : ∀ (bm bs om os : ℚ) (n : ℕ) (t : ℝ),
    (compute_significance bm bs om os n).2 = marker_of (compute_significance bm bs om os n).1 ∧
    ((marker_of t = "***" ↔ t > 3.85) ∧
     (marker_of t = "**" ↔ ¬ t > 3.85 ∧ t > 2.85) ∧
     (marker_of t = "*" ↔ ¬ t > 3.85 ∧ ¬ t > 2.85 ∧ t > 2.09) ∧
     (marker_of t = "." ↔ ¬ t > 3.85 ∧ ¬ t > 2.85 ∧ ¬ t > 2.09 ∧ t > 1.68) ∧
     (marker_of t = "" ↔ ¬ t > 3.85 ∧ ¬ t > 2.85 ∧ ¬ t > 2.09 ∧ ¬ t > 1.68)) := by
  intro bm bs om os n t
  constructor
  · rw [compute_significance_eq]
    split_ifs <;> simp [marker_of_zero]
  · unfold marker_of
    split_ifs <;> simp_all

/-- C2, counterexample: at a t statistic of exactly 2.09 the code does not
return the empty marker claimed: the threshold test falls through to the
next tier and yields the dot marker (2.09 is greater than 1.68).  The
inputs give standard error 1 so the t statistic equals the difference of
the means, exactly 2.09. -/
theorem claim_C2_counterexample :
    compute_significance 2.09 2 0 4 20 = ((2.09 : ℝ), ".") ∧ ("." : String) ≠ "" := by
  refine ⟨?_, by decide⟩
  rw [compute_significance_eq]
  rw [if_neg (by norm_num)]
  rw [if_neg (by rw [se_one]; norm_num)]
  rw [se_one]
  have ht : |((2.09 : ℚ) : ℝ) - ((0 : ℚ) : ℝ)| / 1 = (2.09 : ℝ) := by
    push_cast
    norm_num
  rw [ht]
  unfold marker_of
  norm_num

/-- C2, amended: a t statistic exactly at a tier threshold never receives
that tier's marker (the comparisons are strict); it falls to the next
lower tier instead.  In particular t = 2.09 yields the dot marker rather
than the empty string, t = 2.85 yields one star, t = 3.85 yields two
stars, t = 1.68 yields the empty marker, and t = 2.0900001 yields one
star. -/
theorem claim_C2_amended :
    marker_of 1.68 = "" ∧ marker_of 2.09 = "." ∧ marker_of 2.85 = "*" ∧ marker_of 3.85 = "**" ∧
    compute_significance 2.09 2 0 4 20 = ((2.09 : ℝ), ".") ∧
    compute_significance 2.0900001 2 0 4 20 = ((2.0900001 : ℝ), "*") := by
  refine ⟨by unfold marker_of; norm_num, by unfold marker_of; norm_num,
    by unfold marker_of; norm_num, by unfold marker_of; norm_num, ?_, ?_⟩
  · rw [compute_significance_eq]
    rw [if_neg (by norm_num)]
    rw [if_neg (by rw [se_one]; norm_num)]
    rw [se_one]
    have ht : |((2.09 : ℚ) : ℝ) - ((0 : ℚ) : ℝ)| / 1 = (2.09 : ℝ) := by push_cast; norm_num
    rw [ht]
    unfold marker_of
    norm_num
  · rw [compute_significance_eq]
    rw [if_neg (by norm_num)]
    rw [if_neg (by rw [se_one]; norm_num)]
    rw [se_one]
    have ht : |((2.0900001 : ℚ) : ℝ) - ((0 : ℚ) : ℝ)| / 1 = (2.0900001 : ℝ) := by
      push_cast
      norm_num
    rw [ht]
    unfold marker_of
    norm_num

/-- C3: compute_significance returns (0, empty marker) when both standard
deviations are zero, and when the standard error is zero despite the
first test failing; in every other case it returns the absolute
difference of the means over the standard error, with the marker derived
from that t statistic by the threshold chain. -/
theorem claim_C3 : ∀ (bm bs om os : ℚ) (n : ℕ),
    (bs = 0 ∧ os = 0 → compute_significance bm bs om os n = ((0 : ℝ), "")) ∧
    (¬(bs = 0 ∧ os = 0) → Real.sqrt ((bs : ℝ) ^ 2 / n + (os : ℝ) ^ 2 / n) = 0 →
      compute_significance bm bs om os n = ((0 : ℝ), "")) ∧
    (¬(bs = 0 ∧ os = 0) → Real.sqrt ((bs : ℝ) ^ 2 / n + (os : ℝ) ^ 2 / n) ≠ 0 →
      compute_significance bm bs om os n =
        (|(bm : ℝ) - (om : ℝ)| / Real.sqrt ((bs : ℝ) ^ 2 / n + (os : ℝ) ^ 2 / n),
         marker_of (|(bm : ℝ) - (om : ℝ)| / Real.sqrt ((bs : ℝ) ^ 2 / n + (os : ℝ) ^ 2 / n)))) := by
  intro bm bs om os n
  refine ⟨fun h => ?_, fun h1 h2 => ?_, fun h1 h2 => ?_⟩
  · rw [compute_significance_eq, if_pos h]
  · rw [compute_significance_eq, if_neg h1, if_pos h2]
  · rw [compute_significance_eq, if_neg h1, if_neg h2]

/-- Witness for C3: the three branches exercised at concrete inputs.  The
middle branch needs a zero standard error with a nonzero standard
deviation, which the real-number embedding only reaches at sample size
zero, where the guarded division of the model yields zero. -/
theorem claim_C3_witness :
    compute_significance 100 0 100 0 20 = ((0 : ℝ), "") ∧
    compute_significance 1 1 0 0 0 = ((0 : ℝ), "") ∧
    compute_significance 100 2 90 4 20 =
      (|((100 : ℚ) : ℝ) - ((90 : ℚ) : ℝ)| /
         Real.sqrt (((2 : ℚ) : ℝ) ^ 2 / ((20 : ℕ) : ℝ) + ((4 : ℚ) : ℝ) ^ 2 / ((20 : ℕ) : ℝ)),
       marker_of (|((100 : ℚ) : ℝ) - ((90 : ℚ) : ℝ)| /
         Real.sqrt (((2 : ℚ) : ℝ) ^ 2 / ((20 : ℕ) : ℝ) + ((4 : ℚ) : ℝ) ^ 2 / ((20 : ℕ) : ℝ)))) := by
  refine ⟨(claim_C3 100 0 100 0 20).1 ⟨rfl, rfl⟩, ?_, ?_⟩
  · refine (claim_C3 1 1 0 0 0).2.1 (by norm_num) ?_
    have h : (((1 : ℚ) : ℝ) ^ 2 / ((0 : ℕ) : ℝ) + ((0 : ℚ) : ℝ) ^ 2 / ((0 : ℕ) : ℝ)) = 0 := by
      push_cast
      norm_num
    rw [h, Real.sqrt_zero]
  · refine (claim_C3 100 2 90 4 20).2.2 (by norm_num) ?_
    rw [se_one]
    norm_num

/-! ## Facts about suffix stripping and metric routing -/

theorem endsWith_iff (s suf : BName) : endsWith s suf = true ↔ suf <:+ s := by
  simp [endsWith]

theorem endsWith_append_self (X suf : BName) : endsWith (X ++ suf) suf = true := by
  rw [endsWith_iff]
  exact List.suffix_append X suf

/-- Two strings neither of which is a suffix of the other cannot both be
suffixes of the same string; so appending one of them rules out the
other. -/
theorem endsWith_append_ne (X s t : BName) (h1 : ¬ s <:+ t) (h2 : ¬ t <:+ s) :
    endsWith (X ++ t) s = false := by
  rw [Bool.eq_false_iff]
  intro hc
  rw [endsWith_iff] at hc
  rcases List.suffix_or_suffix_of_suffix hc (List.suffix_append X t) with h | h
  · exact h1 h
  · exact h2 h

theorem dropLastN_append (X suf : BName) : dropLastN (X ++ suf) suf.length = X := by
  unfold dropLastN
  rw [List.length_append, Nat.add_sub_cancel]
  exact List.take_left X suf

/-- C4: for every base name, a record named with the mean suffix strips to
the base name and routes its two metrics into the mean fields, and
likewise for the median, stddev and cv suffixes; a record whose name
matches none of the four suffixes keeps its full name as logical name and
stores nothing in the bundle. -/
theorem claim_C4 : ∀ (X : BName) (rt ct : ℚ) (b : Bundle),
    (stripSuffix (X ++ sufMean) = X ∧
      storeMetrics b (X ++ sufMean) rt ct = { b with mean_time := some rt, mean_cpu := some ct }) ∧
    (stripSuffix (X ++ sufMedian) = X ∧
      storeMetrics b (X ++ sufMedian) rt ct =
        { b with median_time := some rt, median_cpu := some ct }) ∧
    (stripSuffix (X ++ sufStddev) = X ∧
      storeMetrics b (X ++ sufStddev) rt ct =
        { b with stddev_time := some rt, stddev_cpu := some ct }) ∧
    (stripSuffix (X ++ sufCv) = X ∧
      storeMetrics b (X ++ sufCv) rt ct = { b with cv_time := some rt, cv_cpu := some ct }) ∧
    (∀ name : BName, endsWith name sufMean = false → endsWith name sufMedian = false →
      endsWith name sufStddev = false → endsWith name sufCv = false →
      stripSuffix name = name ∧ storeMetrics b name rt ct = b) := by
  intro X rt ct b
  have hMeMd : endsWith (X ++ sufMedian) sufMean = false :=
    endsWith_append_ne X _ _ (by decide) (by decide)
  have hSdMd : endsWith (X ++ sufMedian) sufStddev = false :=
    endsWith_append_ne X _ _ (by decide) (by decide)
  have hMeSd : endsWith (X ++ sufStddev) sufMean = false :=
    endsWith_append_ne X _ _ (by decide) (by decide)
  have hMdSd : endsWith (X ++ sufStddev) sufMedian = false :=
    endsWith_append_ne X _ _ (by decide) (by decide)
  have hMeCv : endsWith (X ++ sufCv) sufMean = false :=
    endsWith_append_ne X _ _ (by decide) (by decide)
  have hMdCv : endsWith (X ++ sufCv) sufMedian = false :=
    endsWith_append_ne X _ _ (by decide) (by decide)
  have hSdCv : endsWith (X ++ sufCv) sufStddev = false :=
    endsWith_append_ne X _ _ (by decide) (by decide)
  refine ⟨⟨?_, ?_⟩, ⟨?_, ?_⟩, ⟨?_, ?_⟩, ⟨?_, ?_⟩, ?_⟩
  · simp [stripSuffix, endsWith_append_self, dropLastN_append]
  · simp [storeMetrics, endsWith_append_self]
  · simp [stripSuffix, endsWith_append_self, dropLastN_append, hMeMd]
  · simp [storeMetrics, endsWith_append_self, hMeMd, hSdMd]
  · simp [stripSuffix, endsWith_append_self, dropLastN_append, hMeSd, hMdSd]
  · simp [storeMetrics, endsWith_append_self, hMeSd]
  · simp [stripSuffix, endsWith_append_self, dropLastN_append, hMeCv, hMdCv, hSdCv]
  · simp [storeMetrics, endsWith_append_self, hMeCv, hMdCv, hSdCv]
  · intro name h1 h2 h3 h4
    constructor
    · simp [stripSuffix, h1, h2, h3, h4]
    · simp [storeMetrics, h1, h2, h3, h4]

/-- Witness for C4 at a concrete name: Foo_mean strips to Foo and fills
the mean fields, while the unsuffixed name Foo is kept verbatim and
stores nothing. -/
theorem claim_C4_witness :
    stripSuffix (['F', 'o', 'o'] ++ sufMean) = ['F', 'o', 'o'] ∧
    storeMetrics Bundle.empty (['F', 'o', 'o'] ++ sufMean) 1 2 =
      { Bundle.empty with mean_time := some 1, mean_cpu := some 2 } ∧
    stripSuffix ['F', 'o', 'o'] = ['F', 'o', 'o'] ∧
    storeMetrics Bundle.empty ['F', 'o', 'o'] 1 2 = Bundle.empty := by
  have h := claim_C4 ['F', 'o', 'o'] 1 2 Bundle.empty
  have hn := h.2.2.2.2 ['F', 'o', 'o'] (by decide) (by decide) (by decide) (by decide)
  exact ⟨h.1.1, h.1.2, hn.1, hn.2⟩

/-! ## Keys of the aggregated result set -/

theorem keysRS_nil : keysRS [] = [] := rfl

theorem keysRS_cons (p : BName × Bundle) (tl : ResultSet) :
    keysRS (p :: tl) = p.1 :: keysRS tl := rfl

theorem setRS_nil (k : BName) (v : Bundle) : setRS [] k v = [(k, v)] := rfl

theorem setRS_cons (k₂ : BName) (v₂ : Bundle) (tl : ResultSet) (k : BName) (v : Bundle) :
    setRS ((k₂, v₂) :: tl) k v =
      if k₂ = k then (k, v) :: tl else (k₂, v₂) :: setRS tl k v := rfl

theorem mem_keys_setRS (rs : ResultSet) (k : BName) (v : Bundle) (x : BName) :
    x ∈ keysRS (setRS rs k v) ↔ x ∈ keysRS rs ∨ x = k := by
  induction rs with
  | nil =>
    rw [setRS_nil, keysRS_cons, keysRS_nil]
    simp
  | cons hd tl ih =>
    obtain ⟨k₂, v₂⟩ := hd
    rw [setRS_cons]
    by_cases h : k₂ = k
    · rw [if_pos h, keysRS_cons, keysRS_cons]
      subst h
      simp only [List.mem_cons]
      tauto
    · rw [if_neg h, keysRS_cons, keysRS_cons]
      simp only [List.mem_cons]
      rw [ih]
      tauto

theorem nodup_keys_setRS (rs : ResultSet) (k : BName) (v : Bundle)
    (h : (keysRS rs).Nodup) : (keysRS (setRS rs k v)).Nodup := by
  induction rs with
  | nil =>
    rw [setRS_nil, keysRS_cons, keysRS_nil]
    simp
  | cons hd tl ih =>
    obtain ⟨k₂, v₂⟩ := hd
    rw [keysRS_cons, List.nodup_cons] at h
    rw [setRS_cons]
    by_cases hk : k₂ = k
    · rw [if_pos hk, keysRS_cons, List.nodup_cons]
      subst hk
      exact ⟨h.1, h.2⟩
    · rw [if_neg hk, keysRS_cons, List.nodup_cons]
      refine ⟨?_, ih h.2⟩
      intro hc
      rw [mem_keys_setRS] at hc
      rcases hc with hc | hc
      · exact h.1 hc
      · exact hk hc

theorem extract_aux : ∀ (recs : List BenchRecord) (rs : ResultSet),
    ((keysRS rs).Nodup → (keysRS (List.foldl extractStep rs recs)).Nodup) ∧
    (∀ x, x ∈ keysRS (List.foldl extractStep rs recs) ↔
      x ∈ keysRS rs ∨ x ∈ recs.map fun r => stripSuffix r.name) := by
  intro recs
  induction recs with
  | nil =>
    intro rs
    simp
  | cons r tl ih =>
    intro rs
    rw [List.foldl_cons]
    have hstep : keysRS (extractStep rs r) = keysRS (setRS rs (stripSuffix r.name)
        (storeMetrics ((lookupRS rs (stripSuffix r.name)).getD Bundle.empty) r.name
          r.realTimeD r.cpuTimeD)) := rfl
    constructor
    · intro hnd
      refine (ih (extractStep rs r)).1 ?_
      rw [hstep]
      exact nodup_keys_setRS _ _ _ hnd
    · intro x
      rw [(ih (extractStep rs r)).2 x, hstep, mem_keys_setRS]
      simp only [List.map_cons, List.mem_cons]
      tauto

/-- C5: the number of bundles produced by extract_results equals the
number of distinct logical names obtained by suffix-stripping the input
record names. -/
theorem claim_C5 : ∀ recs : List BenchRecord,
    (extract_results recs).length = ((recs.map fun r => stripSuffix r.name).dedup).length := by
  intro recs
  have h := extract_aux recs []
  have hnd : (keysRS (extract_results recs)).Nodup := h.1 (by rw [keysRS_nil]; exact List.nodup_nil)
  have hmem : ∀ x, x ∈ keysRS (extract_results recs) ↔
      x ∈ recs.map fun r => stripSuffix r.name := by
    intro x
    have hx := h.2 x
    rw [keysRS_nil] at hx
    simpa using hx
  have hperm : List.Perm (keysRS (extract_results recs))
      ((recs.map fun r => stripSuffix r.name).dedup) := by
    rw [List.perm_ext_iff_of_nodup hnd (List.nodup_dedup _)]
    intro a
    rw [List.mem_dedup]
    exact hmem a
  calc (extract_results recs).length = (keysRS (extract_results recs)).length := by
        rw [keysRS, List.length_map]
    _ = _ := hperm.length_eq

/-! ## The report row computation and the pairing invariant -/

/-- Normal form of the row computation when the four mean fields are
present: left-to-right evaluation turns into the two guarded divisions
followed by the significance call. -/
theorem exbind_ok {e a b : Type} (x : a) (f : a → Except e b) :
    (Except.ok x : Except e a) >>= f = f x := rfl

theorem exbind_error {e a b : Type} (err : e) (f : a → Except e b) :
    (Except.error err : Except e a) >>= f = Except.error err := rfl

theorem mk_row_eq (nm : BName) (b o : Bundle) (bmt bmc omt omc : ℚ)
    (hb1 : b.mean_time = some bmt) (hb2 : b.mean_cpu = some bmc)
    (ho1 : o.mean_time = some omt) (ho2 : o.mean_cpu = some omc) :
    mk_row nm b o =
      if bmt = 0 then Except.error RunError.divByZero
      else if bmc = 0 then Except.error RunError.divByZero
      else Except.ok ⟨nm, (omt - bmt) / bmt * 100, (omc - bmc) / bmc * 100,
        (compute_significance bmc (b.stddev_cpu.getD 0) omc (o.stddev_cpu.getD 0) sampleSize).1,
        (compute_significance bmc (b.stddev_cpu.getD 0) omc (o.stddev_cpu.getD 0) sampleSize).2⟩ := by
  simp only [mk_row, hb1, hb2, ho1, ho2, getField, divQ, exbind_ok]
  split_ifs with h1 h2 <;> simp only [exbind_ok, exbind_error] <;> rfl

/-- The pairing invariant for a single bundle: a time field is present
exactly when the matching cpu field is. -/
def pairedB (b : Bundle) : Prop :=
  b.mean_time.isSome = b.mean_cpu.isSome ∧ b.stddev_time.isSome = b.stddev_cpu.isSome ∧
  b.median_time.isSome = b.median_cpu.isSome ∧ b.cv_time.isSome = b.cv_cpu.isSome

theorem pairedB_empty : pairedB Bundle.empty := by
  unfold pairedB Bundle.empty
  exact ⟨rfl, rfl, rfl, rfl⟩

theorem pairedB_store (b : Bundle) (name : BName) (rt ct : ℚ) (h : pairedB b) :
    pairedB (storeMetrics b name rt ct) := by
  unfold storeMetrics
  unfold pairedB at h ⊢
  split_ifs
  · exact ⟨rfl, h.2.1, h.2.2.1, h.2.2.2⟩
  · exact ⟨h.1, rfl, h.2.2.1, h.2.2.2⟩
  · exact ⟨h.1, h.2.1, rfl, h.2.2.2⟩
  · exact ⟨h.1, h.2.1, h.2.2.1, rfl⟩
  · exact h

theorem mem_setRS (rs : ResultSet) (k : BName) (v : Bundle) (p : BName × Bundle)
    (h : p ∈ setRS rs k v) : p ∈ rs ∨ p = (k, v) := by
  induction rs with
  | nil =>
    rw [setRS_nil] at h
    simp at h
    right
    exact h
  | cons hd tl ih =>
    obtain ⟨k₂, v₂⟩ := hd
    rw [setRS_cons] at h
    by_cases hk : k₂ = k
    · rw [if_pos hk] at h
      rcases List.mem_cons.mp h with h | h
      · right; exact h
      · left; exact List.mem_cons_of_mem _ h
    · rw [if_neg hk] at h
      rcases List.mem_cons.mp h with h | h
      · left; exact h ▸ List.mem_cons_self _ _
      · rcases ih h with h | h
        · left; exact List.mem_cons_of_mem _ h
        · right; exact h

theorem lookupRS_mem (rs : ResultSet) (k : BName) (v : Bundle)
    (h : lookupRS rs k = some v) : (k, v) ∈ rs := by
  induction rs with
  | nil => simp [lookupRS] at h
  | cons hd tl ih =>
    obtain ⟨k₂, v₂⟩ := hd
    by_cases hk : k₂ = k
    · rw [show lookupRS ((k₂, v₂) :: tl) k = if k₂ = k then some v₂ else lookupRS tl k from rfl,
        if_pos hk] at h
      subst hk
      obtain rfl : v₂ = v := Option.some.inj h
      exact List.mem_cons_self _ _
    · rw [show lookupRS ((k₂, v₂) :: tl) k = if k₂ = k then some v₂ else lookupRS tl k from rfl,
        if_neg hk] at h
      exact List.mem_cons_of_mem _ (ih h)

/-- Every bundle reachable in the fold satisfies the pairing invariant. -/
theorem pairedB_fold : ∀ (recs : List BenchRecord) (rs : ResultSet),
    (∀ p : BName × Bundle, p ∈ rs → pairedB p.2) →
    ∀ p : BName × Bundle, p ∈ List.foldl extractStep rs recs → pairedB p.2 := by
  intro recs
  induction recs with
  | nil =>
    intro rs h p hp
    exact h p hp
  | cons r tl ih =>
    intro rs h p hp
    rw [List.foldl_cons] at hp
    refine ih (extractStep rs r) ?_ p hp
    intro q hq
    have hq2 := mem_setRS _ _ _ _ hq
    rcases hq2 with hq2 | hq2
    · exact h q hq2
    · subst hq2
      refine pairedB_store _ _ _ _ ?_
      cases hl : lookupRS rs (stripSuffix r.name) with
      | none => simpa [hl] using pairedB_empty
      | some bb =>
        have := h (stripSuffix r.name, bb) (lookupRS_mem _ _ _ hl)
        simpa [hl] using this

/-- C10: every bundle produced by extract_results has its time and cpu
fields populated in pairs, so once the report guard has checked mean_cpu
in both bundles the row computation cannot fail with a missing-key
error. -/
theorem claim_C10 : ∀ (recs1 recs2 : List BenchRecord) (n1 n2 nm : BName) (b o : Bundle),
    (n1, b) ∈ extract_results recs1 → (n2, o) ∈ extract_results recs2 →
    pairedB b ∧ pairedB o ∧
    (b.mean_cpu.isSome = true → o.mean_cpu.isSome = true →
      mk_row nm b o ≠ Except.error RunError.keyError) := by
  intro recs1 recs2 n1 n2 nm b o hb ho
  have hpb : pairedB b := pairedB_fold recs1 [] (by intro p hp; simp at hp) (n1, b) hb
  have hpo : pairedB o := pairedB_fold recs2 [] (by intro p hp; simp at hp) (n2, o) ho
  refine ⟨hpb, hpo, ?_⟩
  intro hbc hoc
  obtain ⟨bmc, hbmc⟩ := Option.isSome_iff_exists.mp hbc
  obtain ⟨omc, homc⟩ := Option.isSome_iff_exists.mp hoc
  have hbt : b.mean_time.isSome = true := by rw [hpb.1, hbc]
  have hot : o.mean_time.isSome = true := by rw [hpo.1, hoc]
  obtain ⟨bmt, hbmt⟩ := Option.isSome_iff_exists.mp hbt
  obtain ⟨omt, homt⟩ := Option.isSome_iff_exists.mp hot
  rw [mk_row_eq nm b o bmt bmc omt omc hbmt hbmc homt homc]
  split_ifs <;> simp





/-- C7: with all four mean fields present, the row computation fails with
the division-by-zero error exactly when the baseline mean time or the
baseline mean cpu is zero, and on success yields the two percentage
changes of the source formulas together with the significance of the CPU
pair, the standard deviations defaulting to 0 when absent. -/
theorem claim_C7 : ∀ (nm : BName) (b o : Bundle) (bmt bmc omt omc : ℚ),
    b.mean_time = some bmt → b.mean_cpu = some bmc →
    o.mean_time = some omt → o.mean_cpu = some omc →
    ((mk_row nm b o = Except.error RunError.divByZero) ↔ (bmt = 0 ∨ bmc = 0)) ∧
    (∀ row : Row, mk_row nm b o = Except.ok row →
      row.time_change = (omt - bmt) / bmt * 100 ∧
      row.cpu_change = (omc - bmc) / bmc * 100 ∧
      row.t_stat =
        (compute_significance bmc (b.stddev_cpu.getD 0) omc (o.stddev_cpu.getD 0) sampleSize).1 ∧
      row.marker =
        (compute_significance bmc (b.stddev_cpu.getD 0) omc (o.stddev_cpu.getD 0) sampleSize).2) := by
  intro nm b o bmt bmc omt omc hb1 hb2 ho1 ho2
  rw [mk_row_eq nm b o bmt bmc omt omc hb1 hb2 ho1 ho2]
  constructor
  · split_ifs with h1 h2
    · simp [h1]
    · simp [h2]
    · simp [h1, h2]
  · intro row hrow
    split_ifs at hrow with h1 h2
    obtain rfl : row = ⟨nm, (omt - bmt) / bmt * 100, (omc - bmc) / bmc * 100, _, _⟩ :=
      (Except.ok.inj hrow).symm
    exact ⟨rfl, rfl, rfl, rfl⟩

def bundleBase7 : Bundle := ⟨some 100, some 100, none, none, none, none, none, none⟩

def bundleOpt7 : Bundle := ⟨some 90, some 90, none, none, none, none, none, none⟩

theorem claim_C7_witness :
    (mk_row ['a'] bundleBase7 bundleOpt7 = Except.error RunError.divByZero ↔
      ((100 : ℚ) = 0 ∨ (100 : ℚ) = 0)) :=
  (claim_C7 ['a'] bundleBase7 bundleOpt7 100 100 90 90 rfl rfl rfl rfl).1

def recsBase10 : List BenchRecord := [⟨['a'] ++ sufMean, some 100, some 100⟩]

def recsOpt10 : List BenchRecord := [⟨['a'] ++ sufMean, some 90, some 90⟩]

def bundleBase10 : Bundle := ⟨some 100, some 100, none, none, none, none, none, none⟩

def bundleOpt10 : Bundle := ⟨some 90, some 90, none, none, none, none, none, none⟩

theorem claim_C10_witness :
    pairedB bundleBase10 ∧ pairedB bundleOpt10 ∧
    mk_row ['a'] bundleBase10 bundleOpt10 ≠ Except.error RunError.keyError := by
  have h := claim_C10 recsBase10 recsOpt10 ['a'] ['a'] ['a'] bundleBase10 bundleOpt10
    (by decide) (by decide)
  exact ⟨h.1, h.2.1, h.2.2 rfl rfl⟩

/-! ## Sorting of benchmark names and row selection -/

theorem nameLe_nil (b : BName) : nameLe [] b = true := rfl

theorem nameLe_cons (c d : Char) (s t : BName) :
    nameLe (c :: s) (d :: t) =
      if c.toNat < d.toNat then true
      else if d.toNat < c.toNat then false
      else nameLe s t := rfl

theorem nameLe_total : ∀ a b : BName, nameLe a b = true ∨ nameLe b a = true := by
  intro a
  induction a with
  | nil => intro b; left; rfl
  | cons c s ih =>
    intro b
    cases b with
    | nil => right; rfl
    | cons d t =>
      rw [nameLe_cons, nameLe_cons]
      by_cases h1 : c.toNat < d.toNat
      · left
        rw [if_pos h1]
      · by_cases h2 : d.toNat < c.toNat
        · right
          rw [if_pos h2]
        · rcases ih t with h | h
          · left
            rw [if_neg h1, if_neg h2]
            exact h
          · right
            rw [if_neg h2, if_neg h1]
            exact h

/-- Unpack one lexicographic comparison step into the strict-less or
equal-heads cases. -/
theorem nameLe_cons_cases (c d : Char) (s t : BName) (h : nameLe (c :: s) (d :: t) = true) :
    c.toNat < d.toNat ∨ (c.toNat = d.toNat ∧ nameLe s t = true) := by
  rw [nameLe_cons] at h
  by_cases h1 : c.toNat < d.toNat
  · exact Or.inl h1
  · rw [if_neg h1] at h
    by_cases h2 : d.toNat < c.toNat
    · rw [if_pos h2] at h
      exact absurd h (by simp)
    · rw [if_neg h2] at h
      exact Or.inr ⟨by omega, h⟩

theorem nameLe_trans : ∀ a b c : BName, nameLe a b = true → nameLe b c = true →
    nameLe a c = true := by
  intro a
  induction a with
  | nil => intro b c _ _; rfl
  | cons x xs ih =>
    intro b c hab hbc
    cases b with
    | nil => exact absurd hab (by simp [nameLe])
    | cons y ys =>
      cases c with
      | nil => exact absurd hbc (by simp [nameLe])
      | cons z zs =>
        rw [nameLe_cons]
        rcases nameLe_cons_cases x y xs ys hab with h | ⟨he, hx⟩ <;>
          rcases nameLe_cons_cases y z ys zs hbc with h2 | ⟨he2, hx2⟩
        · rw [if_pos (by omega)]
        · rw [if_pos (by omega)]
        · rw [if_pos (by omega)]
        · rw [if_neg (by omega), if_neg (by omega)]
          exact ih ys zs hx hx2

instance instTotalNameLeR : IsTotal BName NameLeR := ⟨nameLe_total⟩

instance instTransNameLeR : IsTrans BName NameLeR := ⟨nameLe_trans⟩

theorem sortNames_sorted (l : List BName) : (sortNames l).Pairwise NameLeR :=
  List.sorted_insertionSort NameLeR l

theorem sortNames_perm (l : List BName) : List.Perm (sortNames l) l :=
  List.perm_insertionSort NameLeR l

/-- The keep condition of the report loop for one name, as a predicate:
the name must be bound in both result sets and both bundles must carry
the mean_cpu field. -/
def rowPasses (baseline optimized : ResultSet) (name : BName) : Bool :=
  match lookupRS optimized name with
  | none => false
  | some o =>
    match lookupRS baseline name with
    | none => false
    | some b => b.mean_cpu.isSome && o.mean_cpu.isSome

theorem selectOne_fst (baseline optimized : ResultSet) (name : BName) :
    Option.map Prod.fst (selectOne baseline optimized name) =
      if rowPasses baseline optimized name then some name else none := by
  unfold selectOne rowPasses
  cases lookupRS optimized name with
  | none => rfl
  | some o =>
    cases lookupRS baseline name with
    | none => rfl
    | some b =>
      by_cases h : (b.mean_cpu.isSome && o.mean_cpu.isSome) = true
      · simp [h]
      · simp [h]

theorem rowPasses_iff (baseline optimized : ResultSet) (name : BName) :
    rowPasses baseline optimized name = true ↔
      (∃ b, lookupRS baseline name = some b ∧ b.mean_cpu.isSome = true) ∧
      (∃ o, lookupRS optimized name = some o ∧ o.mean_cpu.isSome = true) := by
  unfold rowPasses
  cases lookupRS optimized name with
  | none => simp
  | some o =>
    cases lookupRS baseline name with
    | none => simp
    | some b =>
      simp [Bool.and_eq_true]

theorem selectRows_map_fst (baseline optimized : ResultSet) :
    (selectRows baseline optimized).map Prod.fst =
      (sortNames (keysRS baseline)).filter (rowPasses baseline optimized) := by
  unfold selectRows
  generalize sortNames (keysRS baseline) = l
  induction l with
  | nil => rfl
  | cons hd tl ih =>
    rw [List.filterMap_cons, List.filter_cons]
    have h := selectOne_fst baseline optimized hd
    cases hsel : selectOne baseline optimized hd with
    | none =>
      rw [hsel] at h
      by_cases hp : rowPasses baseline optimized hd = true
      · rw [if_pos hp] at h
        simp at h
      · rw [if_neg hp]
        exact ih
    | some x =>
      rw [hsel] at h
      by_cases hp : rowPasses baseline optimized hd = true
      · rw [if_pos hp] at h
        have hx : x.1 = hd := by simpa using h
        rw [if_pos hp, List.map_cons, ih, hx]
      · rw [if_neg hp] at h
        simp at h

theorem mem_keysRS_iff_lookup (rs : ResultSet) (k : BName) :
    k ∈ keysRS rs ↔ ∃ v, lookupRS rs k = some v := by
  induction rs with
  | nil => simp [keysRS_nil, lookupRS]
  | cons hd tl ih =>
    obtain ⟨k₂, v₂⟩ := hd
    rw [keysRS_cons, List.mem_cons]
    rw [show lookupRS ((k₂, v₂) :: tl) k = if k₂ = k then some v₂ else lookupRS tl k from rfl]
    by_cases hk : k₂ = k
    · subst hk
      simp
    · rw [if_neg hk, ih]
      constructor
      · rintro (h | h)
        · exact absurd h.symm hk
        · exact h
      · intro h
        right
        exact h

/-- C6: the row names of the report are the baseline keys in ascending
lexicographic order, and a name gets a row exactly when it is a baseline
key, is bound in the optimized set, and both bundles carry mean_cpu. -/
theorem claim_C6 : ∀ (baseline optimized : ResultSet) (name : BName),
    ((selectRows baseline optimized).map Prod.fst).Pairwise NameLeR ∧
    (name ∈ (selectRows baseline optimized).map Prod.fst ↔
      name ∈ keysRS baseline ∧
      (∃ b, lookupRS baseline name = some b ∧ b.mean_cpu.isSome = true) ∧
      (∃ o, lookupRS optimized name = some o ∧ o.mean_cpu.isSome = true)) := by
  intro baseline optimized name
  constructor
  · rw [selectRows_map_fst]
    exact (sortNames_sorted (keysRS baseline)).sublist (List.filter_sublist _)
  · rw [selectRows_map_fst, List.mem_filter, (sortNames_perm (keysRS baseline)).mem_iff,
      rowPasses_iff]

def rsBase6 : ResultSet := [(['b'], Bundle.empty), (['a'], bundleBase7)]

def rsOpt6 : ResultSet := [(['a'], bundleOpt7)]

theorem claim_C6_witness :
    ((selectRows rsBase6 rsOpt6).map Prod.fst).Pairwise NameLeR ∧
    (['a'] ∈ (selectRows rsBase6 rsOpt6).map Prod.fst ↔
      ['a'] ∈ keysRS rsBase6 ∧
      (∃ b, lookupRS rsBase6 ['a'] = some b ∧ b.mean_cpu.isSome = true) ∧
      (∃ o, lookupRS rsOpt6 ['a'] = some o ∧ o.mean_cpu.isSome = true)) :=
  claim_C6 rsBase6 rsOpt6 ['a']

/-! ## The improvements summary and the entry point -/

/-- C8: a row is accumulated as a significant improvement exactly when its
CPU change is below -2 percent and its marker is one of the three starred
tiers; the dot marker never qualifies; with at least one such row the
summary lists them with the arithmetic mean of their CPU changes, and
with none it is the fixed notice. -/
theorem claim_C8 : ∀ (rows : List Row) (r : Row),
    (r ∈ significantImprovements rows ↔
      r ∈ rows ∧ r.cpu_change < -2.0 ∧ r.marker ∈ (["*", "**", "***"] : List String)) ∧
    (r.marker = "." → r ∉ significantImprovements rows) ∧
    (significantImprovements rows ≠ [] →
      summarize rows = Summary.improvements
        ((significantImprovements rows).map fun x => (x.name, x.cpu_change, x.marker))
        (((significantImprovements rows).map Row.cpu_change).sum /
          ((significantImprovements rows).length : ℚ))) ∧
    (significantImprovements rows = [] → summarize rows = Summary.noneDetected) := by
  intro rows r
  have hmem : r ∈ significantImprovements rows ↔
      r ∈ rows ∧ r.cpu_change < -2.0 ∧ r.marker ∈ (["*", "**", "***"] : List String) := by
    unfold significantImprovements
    rw [List.mem_filter]
    simp
  refine ⟨hmem, ?_, ?_, ?_⟩
  · intro hdot hc
    rw [hmem] at hc
    have := hc.2.2
    rw [hdot] at this
    simp at this
  · intro hne
    unfold summarize
    rw [if_neg (by simpa [List.isEmpty_iff] using hne)]
  · intro heq
    unfold summarize
    rw [heq]
    rfl

def rowW8 : Row := ⟨['a'], -10, -10, 0, "*"⟩

theorem claim_C8_witness :
    (rowW8 ∈ significantImprovements [rowW8] ↔
      rowW8 ∈ [rowW8] ∧ rowW8.cpu_change < -2.0 ∧
        rowW8.marker ∈ (["*", "**", "***"] : List String)) ∧
    summarize [rowW8] = Summary.improvements
      ((significantImprovements [rowW8]).map fun x => (x.name, x.cpu_change, x.marker))
      (((significantImprovements [rowW8]).map Row.cpu_change).sum /
        ((significantImprovements [rowW8]).length : ℚ)) ∧
    summarize [] = Summary.noneDetected := by
  have hsi : significantImprovements [rowW8] = [rowW8] := by
    unfold significantImprovements rowW8
    rw [List.filter_cons]
    rw [if_pos (by norm_num)]
    rfl
  refine ⟨(claim_C8 [rowW8] rowW8).1, ?_, ?_⟩
  · exact (claim_C8 [rowW8] rowW8).2.2.1 (by rw [hsi]; simp)
  · exact (claim_C8 [] rowW8).2.2.2 rfl

/-- C9: the entry point prints the usage line and exits with status 1 for
every argument vector whose length differs from three (the program name
plus the two files), and with exactly three entries it proceeds to the
comparison of the two named files whatever they are. -/
theorem claim_C9 : ∀ argv : List BName,
    (argv.length ≠ 3 → main_dispatch argv = MainAction.usage usageMessage 1) ∧
    (∀ p b o : BName, argv = [p, b, o] → main_dispatch argv = MainAction.runCompare b o) := by
  intro argv
  constructor
  · intro h
    unfold main_dispatch
    rw [dif_neg h]
  · intro p b o h
    subst h
    rfl

theorem claim_C9_witness :
    main_dispatch [['p']] = MainAction.usage usageMessage 1 ∧
    main_dispatch [['p'], ['a'], ['b']] = MainAction.runCompare ['a'] ['b'] :=
  ⟨(claim_C9 [['p']]).1 (by decide),
   (claim_C9 [['p'], ['a'], ['b']]).2 ['p'] ['a'] ['b'] rfl⟩

end CompareBenchmarks
